import Mathlib

/-
Verification of the Relay experimental runtime core: the network payload
normalization routine (RelayNetwork), the environment orchestration of
queries, mutations and subscriptions (RelayStaticEnvironment), the
mutation helper (commitRelayStaticMutation), and the publish queue
protocol they drive.

Pure data is embedded directly from the JavaScript source.  The record
store state is an abstract type sigma; optimistic updaters and commit
updaters are functions over sigma, and a response payload is applied to
the state through an interpretation function.  Each environment
operation is embedded as an explicit state-passing function that also
logs an event trace of queue calls and callback invocations, so that
ordering and counting claims can be stated over the trace.
-/

/-- One entry of the errors list of a raw server response. -/
structure GQLError where
  message : String
  deriving DecidableEq, Repr

/-- A concrete operation node (ConcreteBatch): the name and an opaque
handle for the query document. -/
structure ConcreteBatch where
  name : String
  query : Nat
  deriving DecidableEq, Repr

/-- Raw payload data returned by the transport, kept opaque. -/
abbrev PayloadData := Nat

/-- A selector: root record identity, query node and variables
(variables kept as an opaque serialized string). -/
structure Selector where
  dataID : String
  node : Nat
  vars : String
  deriving DecidableEq, Repr

/-- Options accepted by the external payload normalizer. -/
structure NormalizeOptions where
  handleStrippedNulls : Bool
  deriving DecidableEq, Repr

/-- Well-known root record identity (ROOT_ID from RelayStoreUtils). -/
def ROOT_ID : String := "client:root"

/-- The normalized result of one fetch.  The normalizer itself is an
external collaborator, so its output is embedded symbolically as the
record of the arguments it was invoked with; in particular the options
argument is visible, with none standing for an omitted options
argument at the call site. -/
structure RelayResponsePayload where
  selector : Selector
  data : PayloadData
  options : Option NormalizeOptions
  deriving DecidableEq, Repr

/-- External normalizeRelayPayload, embedded as the function recording
its call: selector, raw data and the options argument (none when the
caller omits it). -/
def normalizeRelayPayload (selector : Selector) (data : PayloadData)
    (options : Option NormalizeOptions) : RelayResponsePayload :=
  { selector := selector, data := data, options := options }

/-- A raw server response: data (null or an object) and an optional
errors list (none models an absent or null errors field, some models a
present array, possibly empty). -/
structure RawResponse where
  data : Option PayloadData
  errors : Option (List GQLError)
  deriving DecidableEq, Repr

/-- The source attached to a no-data error: the original errors list,
the operation and the variables. -/
structure ErrorSource where
  errors : Option (List GQLError)
  operation : ConcreteBatch
  vars : String
  deriving DecidableEq, Repr

/-- The structured error built by RelayError.create in normalizePayload:
the format arguments (operation name and the errors text interpolated
into the message) and the attached source. -/
structure RelayError where
  operationName : String
  errorsText : String
  source : Option ErrorSource
  deriving DecidableEq, Repr

/-- The full message string the error formats to. -/
def RelayError.message (e : RelayError) : String :=
  "No data returned for operation `" ++ e.operationName ++
  "`, got error(s):\n" ++ e.errorsText ++
  "\n\nSee the error `source` property for more information."

/-- Errors text interpolated into the no-data message: the JavaScript
conditional uses the joined messages whenever the errors value is
truthy (any present array, including an empty one) and the sentinel
only when errors is absent or null. -/
def noDataErrorsText (errors : Option (List GQLError)) : String :=
  match errors with
  | some l => String.intercalate "\n" (l.map GQLError.message)
  | none => "(No errors)"

/-- Result of normalizePayload: either a normalized payload together
with the flag telling whether the errors warning was emitted, or the
structured no-data error. -/
abbrev NormalizeResult := Except RelayError (RelayResponsePayload × Bool)

/-- Embedding of normalizePayload from RelayNetwork: with non-null
data the payload is normalized against the root selector with stripped
null handling, warning first when a non-empty errors list is present;
with null data a structured error carrying the errors, operation and
variables is raised. -/
def normalizePayload (operation : ConcreteBatch) (vars : String)
    (payload : RawResponse) : NormalizeResult :=
  match payload.data with
  | some d =>
      let warned : Bool :=
        match payload.errors with
        | some (_ :: _) => true
        | _ => false
      .ok (normalizeRelayPayload
             { dataID := ROOT_ID, node := operation.query,
               vars := vars }
             d (some { handleStrippedNulls := true }), warned)
  | none =>
      .error
        { operationName := operation.name,
          errorsText := noDataErrorsText payload.errors,
          source := some
            { errors := payload.errors, operation := operation,
              vars := vars } }

/-
Publish queue model.  The RelayPublishQueue module itself is not among
the provided source files (only its callers are), so the queue is
modelled from the spec, section 4.1.
-/

/-- An optimistic updater: the reference identity of the function (two
applications of the same updater share the id) together with its pure
effect on the record state. -/
structure Updater (σ : Type) where
  id : Nat
  fn : σ → σ

/-- Modelled from the spec: a pending entry of the publish queue
(RelayPublishQueue source is absent), either a confirmed commit with
its optional updater or an optimistic update. -/
inductive PendingEntry (π σ : Type)
  | commit (payload : π) (updater : Option (σ → σ))
  | optimistic (u : Updater σ)

/-- Reference identity of a pending entry: only optimistic entries are
matched by revertUpdate, so commits carry none. -/
def entryId {π σ : Type} : PendingEntry π σ → Option Nat
  | .commit _ _ => none
  | .optimistic u => some u.id

/-- Identities of the optimistic entries of a pending list. -/
def pendingIds {π σ : Type} (l : List (PendingEntry π σ)) : List Nat :=
  l.filterMap entryId

/-- Whether an entry is optimistic. -/
def isOpt {π σ : Type} : PendingEntry π σ → Bool
  | .optimistic _ => true
  | .commit _ _ => false

/-- Modelled from the spec: the publish queue state (RelayPublishQueue
source is absent): the permanent confirmed base, the ordered pending
entries, and the currently published record state. -/
structure PQState (π σ : Type) where
  base : σ
  pending : List (PendingEntry π σ)
  published : σ

/-- Modelled from the spec: applyUpdate appends an optimistic entry;
no immediate store mutation. -/
def pqApplyUpdate {π σ : Type} (u : Updater σ) (q : PQState π σ) :
    PQState π σ :=
  { q with pending := q.pending ++ [.optimistic u] }

/-- Modelled from the spec: commitPayload appends a confirmed entry
with its optional updater. -/
def pqCommitPayload {π σ : Type} (p : π) (upd : Option (σ → σ))
    (q : PQState π σ) : PQState π σ :=
  { q with pending := q.pending ++ [.commit p upd] }

/-- Remove the first entry whose reference identity matches. -/
def eraseId {π σ : Type} (i : Nat) :
    List (PendingEntry π σ) → List (PendingEntry π σ)
  | [] => []
  | e :: t => if entryId e = some i then t else e :: eraseId i t

/-- Modelled from the spec: revertUpdate removes the previously
applied optimistic entry matched by reference identity, a no-op when
no entry matches. -/
def pqRevertUpdate {π σ : Type} (i : Nat) (q : PQState π σ) :
    PQState π σ :=
  { q with pending := eraseId i q.pending }

/-- Effect of one pending entry on the confirmed base during run: a
commit applies its payload writes then its optional updater;
optimistic entries do not touch the base. -/
def applyCommitEntry {π σ : Type} (applyP : π → σ → σ) (s : σ) :
    PendingEntry π σ → σ
  | .commit p (some f) => f (applyP p s)
  | .commit p none => applyP p s
  | .optimistic _ => s

/-- Effect of one pending entry during optimistic re-layering:
optimistic entries apply their function, commits are already folded
into the base. -/
def applyOptEntry {π σ : Type} (s : σ) : PendingEntry π σ → σ
  | .optimistic u => u.fn s
  | .commit _ _ => s

/-- Modelled from the spec: run recomputes the final record state from
the last confirmed base, folding every commit entry in insertion order
(payload writes then its updater), then re-applying every queued
optimistic entry in insertion order on top; processed commits are
cleared into the base, optimistic entries are retained. -/
def pqRun {π σ : Type} (applyP : π → σ → σ) (q : PQState π σ) :
    PQState π σ :=
  { base := q.pending.foldl (applyCommitEntry applyP) q.base,
    pending := q.pending.filter isOpt,
    published := (q.pending.filter isOpt).foldl applyOptEntry
      (q.pending.foldl (applyCommitEntry applyP) q.base) }

/-- One publish queue operation, for stating interleaving claims. -/
inductive QOp (π σ : Type)
  | applyU (u : Updater σ)
  | revertU (i : Nat)
  | commitP (p : π) (upd : Option (σ → σ))
  | run

/-- Execute one queue operation. -/
def execOp {π σ : Type} (applyP : π → σ → σ) (q : PQState π σ) :
    QOp π σ → PQState π σ
  | .applyU u => pqApplyUpdate u q
  | .revertU i => pqRevertUpdate i q
  | .commitP p upd => pqCommitPayload p upd q
  | .run => pqRun applyP q

/-- Execute a sequence of queue operations in order. -/
def execOps {π σ : Type} (applyP : π → σ → σ) (q : PQState π σ)
    (ops : List (QOp π σ)) : PQState π σ :=
  ops.foldl (execOp applyP) q

/-- Whether a queue operation mentions the given update identity. -/
def touches {π σ : Type} (i : Nat) : QOp π σ → Bool
  | .applyU u => u.id == i
  | .revertU j => j == i
  | .commitP _ _ => false
  | .run => false

/-
Environment model.  Each operation of RelayStaticEnvironment is
embedded as an explicit state-passing function over the publish queue
paired with an event trace recording queue calls and callback
invocations in program order.
-/

/-- An error value delivered to onError: either a transport rejection
reason (opaque id) or a structured normalization error. -/
inductive ErrVal
  | transport (e : Nat)
  | relay (e : RelayError)
  deriving DecidableEq, Repr

/-- One observable event: a publish queue method call, a warning, or a
callback invocation.  The revertUpdate event records whether the call
found a matching queued entry to remove. -/
inductive Ev
  | applyUpdate (uid : Nat)
  | revertUpdate (uid : Nat) (removed : Bool)
  | commitPayload (hasUpdater : Bool)
  | run
  | warn
  | onNext
  | onCompleted
  | onError (e : ErrVal)
  deriving DecidableEq, Repr

/-- Whether an event is a callback invocation. -/
def Ev.isCallback : Ev → Bool
  | .onNext => true
  | .onCompleted => true
  | .onError _ => true
  | _ => false

/-- Whether an event is a commitPayload queue call. -/
def Ev.isCommit : Ev → Bool
  | .commitPayload _ => true
  | _ => false

/-- Whether an event is a revertUpdate call for the given identity
that actually removed a queued entry. -/
def Ev.isEffRemove (i : Nat) : Ev → Bool
  | .revertUpdate j true => j == i
  | _ => false

/-- The callback invocations of a trace, in order. -/
def callbacksOf (tr : List Ev) : List Ev := tr.filter Ev.isCallback

/-- Environment state: the publish queue plus the event trace. -/
structure EnvSt (π σ : Type) where
  queue : PQState π σ
  trace : List Ev

/-- Environment state over a queue with an empty trace. -/
def mkEnv {π σ : Type} (q : PQState π σ) : EnvSt π σ :=
  { queue := q, trace := [] }

/-- Queue applyUpdate call with trace logging. -/
def envApplyUpdate {π σ : Type} (u : Updater σ) (env : EnvSt π σ) :
    EnvSt π σ :=
  { queue := pqApplyUpdate u env.queue,
    trace := env.trace ++ [.applyUpdate u.id] }

/-- Queue revertUpdate call with trace logging, recording whether a
matching entry was present. -/
def envRevertUpdate {π σ : Type} (u : Updater σ) (env : EnvSt π σ) :
    EnvSt π σ :=
  { queue := pqRevertUpdate u.id env.queue,
    trace := env.trace ++
      [.revertUpdate u.id (u.id ∈ pendingIds env.queue.pending)] }

/-- Queue commitPayload call with trace logging. -/
def envCommitPayload {π σ : Type} (p : π) (upd : Option (σ → σ))
    (env : EnvSt π σ) : EnvSt π σ :=
  { queue := pqCommitPayload p upd env.queue,
    trace := env.trace ++ [.commitPayload upd.isSome] }

/-- Queue run call with trace logging. -/
def envRun {π σ : Type} (applyP : π → σ → σ) (env : EnvSt π σ) :
    EnvSt π σ :=
  { queue := pqRun applyP env.queue, trace := env.trace ++ [.run] }

/-- Warning emission. -/
def envWarn {π σ : Type} (env : EnvSt π σ) : EnvSt π σ :=
  { env with trace := env.trace ++ [.warn] }

/-- The onNext callback invocation. -/
def envOnNext {π σ : Type} (env : EnvSt π σ) : EnvSt π σ :=
  { env with trace := env.trace ++ [.onNext] }

/-- The onCompleted callback invocation. -/
def envOnCompleted {π σ : Type} (env : EnvSt π σ) : EnvSt π σ :=
  { env with trace := env.trace ++ [.onCompleted] }

/-- The onError callback invocation. -/
def envOnError {π σ : Type} (e : ErrVal) (env : EnvSt π σ) :
    EnvSt π σ :=
  { env with trace := env.trace ++ [.onError e] }

/-
Mutation lifecycle, embedded from sendMutation in
RelayStaticEnvironment.  The closure state consists of the isDisposed
flag and the mutable optimisticUpdater variable, which dispose nulls
out after reverting.
-/

/-- Closure state of one sendMutation call: the isDisposed flag and
the current value of the mutable optimisticUpdater variable. -/
structure MutSt (σ : Type) where
  isDisposed : Bool
  optimisticUpdater : Option (Updater σ)

/-- Start of sendMutation: when an optimistic updater is supplied it
is applied to the queue and run immediately, before the network
request is issued. -/
def sendMutationInit {π σ : Type} (applyP : π → σ → σ)
    (opt : Option (Updater σ)) (env : EnvSt π σ) :
    MutSt σ × EnvSt π σ :=
  match opt with
  | some u =>
      (⟨false, some u⟩, envRun applyP (envApplyUpdate u env))
  | none => (⟨false, none⟩, env)

/-- The dispose closure of sendMutation: when the optimistic updater
is still set it is reverted, the queue is run and the variable is
nulled; the isDisposed flag is then set. -/
def mutDispose {π σ : Type} (applyP : π → σ → σ) :
    MutSt σ × EnvSt π σ → MutSt σ × EnvSt π σ
  | (m, env) =>
    match m.optimisticUpdater with
    | some u => (⟨true, none⟩, envRun applyP (envRevertUpdate u env))
    | none => ({ m with isDisposed := true }, env)

/-- The fulfillment handler of sendMutation: a disposed operation is
inert; otherwise the optimistic entry is reverted when still set, the
payload is committed with the caller updater attached, the queue is
run and onCompleted is invoked. -/
def mutResolve {π σ : Type} (applyP : π → σ → σ) (p : π)
    (upd : Option (σ → σ)) :
    MutSt σ × EnvSt π σ → MutSt σ × EnvSt π σ
  | (m, env) =>
    if m.isDisposed then (m, env)
    else
      let env1 := match m.optimisticUpdater with
        | some u => envRevertUpdate u env
        | none => env
      (m, envOnCompleted (envRun applyP (envCommitPayload p upd env1)))

/-- The rejection handler of sendMutation: a disposed operation is
inert; otherwise the optimistic entry is reverted when still set, the
queue is run and onError is invoked with the rejection reason. -/
def mutReject {π σ : Type} (applyP : π → σ → σ) (e : ErrVal) :
    MutSt σ × EnvSt π σ → MutSt σ × EnvSt π σ
  | (m, env) =>
    if m.isDisposed then (m, env)
    else
      let env1 := match m.optimisticUpdater with
        | some u => envRevertUpdate u env
        | none => env
      (m, envOnError e (envRun applyP env1))

/-- A caller-visible step after sendMutation is issued: a dispose call
or the settlement of the transport promise. -/
inductive MutStep (π : Type)
  | dispose
  | resolve (p : π)
  | reject (e : Nat)

/-- Execute one mutation step. -/
def mutStep {π σ : Type} (applyP : π → σ → σ) (upd : Option (σ → σ))
    (s : MutSt σ × EnvSt π σ) : MutStep π → MutSt σ × EnvSt π σ
  | .dispose => mutDispose applyP s
  | .resolve p => mutResolve applyP p upd s
  | .reject e => mutReject applyP (.transport e) s

/-- Run a full sendMutation scenario: the initial optimistic phase
followed by the given steps. -/
def runMutation {π σ : Type} (applyP : π → σ → σ)
    (opt : Option (Updater σ)) (upd : Option (σ → σ))
    (steps : List (MutStep π)) (env : EnvSt π σ) :
    MutSt σ × EnvSt π σ :=
  steps.foldl (mutStep applyP upd) (sendMutationInit applyP opt env)

/-
Query lifecycle, embedded from sendQuery in RelayStaticEnvironment.
-/

/-- Closure state of one sendQuery call. -/
structure QuerySt where
  isDisposed : Bool
  deriving DecidableEq, Repr

/-- A caller-visible step after sendQuery is issued. -/
inductive QueryStep (π : Type)
  | dispose
  | resolve (p : π)
  | reject (e : Nat)

/-- Execute one query step: dispose sets the flag; a settlement of a
disposed operation is inert; fulfillment commits the payload, runs the
queue and invokes onNext then onCompleted; rejection invokes onError
with the raw error. -/
def queryStep {π σ : Type} (applyP : π → σ → σ)
    (s : QuerySt × EnvSt π σ) : QueryStep π → QuerySt × EnvSt π σ
  | .dispose => (⟨true⟩, s.2)
  | .resolve p =>
      if s.1.isDisposed then s
      else
        (s.1, envOnCompleted (envOnNext
          (envRun applyP (envCommitPayload p none s.2))))
  | .reject e =>
      if s.1.isDisposed then s
      else (s.1, envOnError (.transport e) s.2)

/-- Run a full sendQuery scenario from an undisposed start. -/
def runQuery {π σ : Type} (applyP : π → σ → σ)
    (steps : List (QueryStep π)) (env : EnvSt π σ) :
    QuerySt × EnvSt π σ :=
  steps.foldl (queryStep applyP) (⟨false⟩, env)

/-
Subscription lifecycle: the composition of requestSubscription from
RelayNetwork with the observer wrapping of sendQuerySubscription in
RelayStaticEnvironment, which commits and runs each arriving payload
before forwarding it to the caller onNext.
-/

/-- Closure state of one subscription. -/
structure SubSt where
  isDisposed : Bool
  deriving DecidableEq, Repr

/-- A caller-visible step after the subscription is issued. -/
inductive SubStep
  | dispose
  | resolve (raw : RawResponse)
  | reject (e : Nat)

/-- Execute one subscription step: dispose sets the flag; settlements
of a disposed subscription are inert; a transport rejection invokes
onError; a fulfilled response is normalized (emitting the warning for
partial data with errors), a normalization failure goes to onError,
otherwise the payload is committed and run and onNext then onCompleted
are invoked. -/
def subStep {σ : Type} (applyP : RelayResponsePayload → σ → σ)
    (operation : ConcreteBatch) (vars : String)
    (s : SubSt × EnvSt RelayResponsePayload σ) :
    SubStep → SubSt × EnvSt RelayResponsePayload σ
  | .dispose => (⟨true⟩, s.2)
  | .reject e =>
      if s.1.isDisposed then s
      else (s.1, envOnError (.transport e) s.2)
  | .resolve raw =>
      if s.1.isDisposed then s
      else
        match normalizePayload operation vars raw with
        | .error err => (s.1, envOnError (.relay err) s.2)
        | .ok (p, warned) =>
            let env0 := if warned then envWarn s.2 else s.2
            (s.1, envOnCompleted (envOnNext
              (envRun applyP (envCommitPayload p none env0))))

/-- Run a full subscription scenario from an undisposed start. -/
def runSub {σ : Type} (applyP : RelayResponsePayload → σ → σ)
    (operation : ConcreteBatch) (vars : String) (steps : List SubStep)
    (env : EnvSt RelayResponsePayload σ) :
    SubSt × EnvSt RelayResponsePayload σ :=
  steps.foldl (subStep applyP operation vars) (⟨false⟩, env)

/-
Direct payload commit, embedded from the commitPayload method of
RelayStaticEnvironment: the payload is normalized with the options
argument omitted, committed without an updater, and run.
-/

/-- Embedding of the Environment commitPayload method: normalize with
no options argument (no stripped null handling), enqueue, run. -/
def commitPayloadMethod {σ : Type}
    (applyP : RelayResponsePayload → σ → σ) (selector : Selector)
    (data : PayloadData) (env : EnvSt RelayResponsePayload σ) :
    EnvSt RelayResponsePayload σ :=
  let relayPayload := normalizeRelayPayload selector data none
  envRun applyP (envCommitPayload relayPayload none env)

/-
Mutation helper, embedded from commitRelayStaticMutation: the caller
config onCompleted is wrapped so that on completion, when present, it
receives the data of a snapshot looked up from the environment at
completion time.
-/

/-- A store snapshot: the materialized data for a selector. -/
structure Snapshot (δ : Type) where
  data : δ

/-- Observable behaviour of the wrapped onCompleted callback: how many
environment lookups it performed and the value it delivered to the
config onCompleted callback. -/
structure CompletedObs (δ : Type) where
  lookups : Nat
  delivered : Option δ
  deriving Repr

/-- The onCompleted wrapper installed by commitRelayStaticMutation:
when the config carries an onCompleted callback, one lookup of the
operation fragment is performed and its snapshot data is delivered;
otherwise no lookup and no delivery happen. -/
def crsmOnCompleted {δ : Type} (lookupFn : Selector → Snapshot δ)
    (fragment : Selector) (hasOnCompleted : Bool) : CompletedObs δ :=
  if hasOnCompleted then
    { lookups := 1, delivered := some (lookupFn fragment).data }
  else
    { lookups := 0, delivered := none }

/-- Run commitRelayStaticMutation through a successful settlement: the
underlying sendMutation scenario resolves with the server payload, and
the wrapper then observes the environment through a lookup function
reading the published store state at completion time. -/
def runCommitMutation {π σ δ : Type} (applyP : π → σ → σ)
    (lookup : σ → Selector → Snapshot δ) (fragment : Selector)
    (opt : Option (Updater σ)) (upd : Option (σ → σ)) (p : π)
    (hasOnCompleted : Bool) (q0 : PQState π σ) :
    (MutSt σ × EnvSt π σ) × CompletedObs δ :=
  let s := runMutation applyP opt upd [.resolve p] (mkEnv q0)
  (s, crsmOnCompleted (lookup s.2.queue.published) fragment
        hasOnCompleted)

/-
List lemmas about pending entry lists.
-/

theorem mem_pendingIds {π σ : Type} (i : Nat)
    (l : List (PendingEntry π σ)) :
    i ∈ pendingIds l ↔ ∃ e ∈ l, entryId e = some i := by
  simp [pendingIds, List.mem_filterMap]

theorem eraseId_subset {π σ : Type} (j : Nat)
    (l : List (PendingEntry π σ)) :
    ∀ e ∈ eraseId j l, e ∈ l := by
  induction l with
  | nil => simp [eraseId]
  | cons a t ih =>
      intro e he
      by_cases ha : entryId a = some j
      · simp only [eraseId, if_pos ha] at he
        exact List.mem_cons_of_mem a he
      · simp only [eraseId, if_neg ha] at he
        rcases List.mem_cons.mp he with h1 | h2
        · exact h1 ▸ List.mem_cons_self a t
        · exact List.mem_cons_of_mem a (ih e h2)

theorem eraseId_append_of_not_mem {π σ : Type} (i : Nat)
    (l l2 : List (PendingEntry π σ)) (h : i ∉ pendingIds l) :
    eraseId i (l ++ l2) = l ++ eraseId i l2 := by
  induction l with
  | nil => simp
  | cons a t ih =>
      rw [mem_pendingIds] at h
      push_neg at h
      have ha : entryId a ≠ some i := h a (List.mem_cons_self a t)
      have ht : i ∉ pendingIds t := by
        rw [mem_pendingIds]
        push_neg
        intro e he
        exact h e (List.mem_cons_of_mem a he)
      simp [eraseId, ha, ih ht]

theorem eraseId_eq_self {π σ : Type} (i : Nat)
    (l : List (PendingEntry π σ)) (h : i ∉ pendingIds l) :
    eraseId i l = l := by
  have h2 := eraseId_append_of_not_mem i l [] h
  simpa [eraseId] using h2

theorem eraseId_append_single {π σ : Type} (i : Nat)
    (l : List (PendingEntry π σ)) (e : PendingEntry π σ)
    (h : entryId e ≠ some i) :
    eraseId i (l ++ [e]) = eraseId i l ++ [e] := by
  induction l with
  | nil => simp [eraseId, h]
  | cons a t ih =>
      by_cases ha : entryId a = some i
      · simp [eraseId, ha]
      · simp [eraseId, ha, ih]

theorem eraseId_comm {π σ : Type} (i j : Nat) (hij : i ≠ j)
    (l : List (PendingEntry π σ)) :
    eraseId i (eraseId j l) = eraseId j (eraseId i l) := by
  induction l with
  | nil => simp [eraseId]
  | cons a t ih =>
      by_cases ha : entryId a = some j
      · have hai : entryId a ≠ some i := by
          rw [ha]
          intro hc
          injection hc with h2
          exact hij h2.symm
        rw [show eraseId j (a :: t) = t from by simp [eraseId, ha]]
        rw [show eraseId i (a :: t) = a :: eraseId i t from by
          simp [eraseId, hai]]
        rw [show eraseId j (a :: eraseId i t) = eraseId i t from by
          simp [eraseId, ha]]
      · by_cases hai : entryId a = some i
        · rw [show eraseId i (a :: t) = t from by simp [eraseId, hai]]
          rw [show eraseId j (a :: t) = a :: eraseId j t from by
            simp [eraseId, ha]]
          rw [show eraseId i (a :: eraseId j t) = eraseId j t from by
            simp [eraseId, hai]]
        · rw [show eraseId j (a :: t) = a :: eraseId j t from by
            simp [eraseId, ha]]
          rw [show eraseId i (a :: t) = a :: eraseId i t from by
            simp [eraseId, hai]]
          rw [show eraseId i (a :: eraseId j t) =
                a :: eraseId i (eraseId j t) from by simp [eraseId, hai]]
          rw [show eraseId j (a :: eraseId i t) =
                a :: eraseId j (eraseId i t) from by simp [eraseId, ha]]
          rw [ih]

theorem pendingIds_append {π σ : Type}
    (l l2 : List (PendingEntry π σ)) :
    pendingIds (l ++ l2) = pendingIds l ++ pendingIds l2 := by
  simp [pendingIds]

theorem pendingIds_filter_isOpt {π σ : Type}
    (l : List (PendingEntry π σ)) :
    pendingIds (l.filter isOpt) = pendingIds l := by
  induction l with
  | nil => rfl
  | cons a t ih =>
      cases a with
      | commit p u =>
          simpa [pendingIds, List.filter, isOpt, entryId] using ih
      | optimistic u =>
          simpa [pendingIds, List.filter, isOpt, entryId] using ih

theorem not_mem_pendingIds_eraseId {π σ : Type} (i j : Nat)
    (l : List (PendingEntry π σ)) (h : i ∉ pendingIds l) :
    i ∉ pendingIds (eraseId j l) := by
  intro hc
  rw [mem_pendingIds] at hc
  obtain ⟨e, he, hei⟩ := hc
  exact h ((mem_pendingIds i l).mpr ⟨e, eraseId_subset j l e he, hei⟩)

theorem eraseId_filter_isOpt {π σ : Type} (i : Nat)
    (l : List (PendingEntry π σ)) :
    eraseId i (l.filter isOpt) = (eraseId i l).filter isOpt := by
  induction l with
  | nil => rfl
  | cons a t ih =>
      cases a with
      | commit p u =>
          have h2 : entryId (PendingEntry.commit (σ := σ) p u) ≠ some i := by
            simp [entryId]
          simp [List.filter, isOpt, eraseId, h2, ih]
      | optimistic u =>
          by_cases hu : u.id = i
          · simp [List.filter, isOpt, eraseId, entryId, hu]
          · have h2 : entryId (PendingEntry.optimistic (π := π) u) ≠
                some i := by simp [entryId, hu]
            simp [List.filter, isOpt, eraseId, h2, ih]

/-
Fold lemmas: optimistic entries are transparent to the confirmed base,
erased entries are always optimistic, and a pending list of optimistic
entries only leaves the base untouched.
-/

theorem applyCommitEntry_of_entryId_some {π σ : Type}
    (applyP : π → σ → σ) (s : σ) (e : PendingEntry π σ) (i : Nat)
    (h : entryId e = some i) : applyCommitEntry applyP s e = s := by
  cases e with
  | commit p u => simp [entryId] at h
  | optimistic u => rfl

theorem foldl_applyCommitEntry_eraseId {π σ : Type}
    (applyP : π → σ → σ) (i : Nat) (l : List (PendingEntry π σ))
    (b : σ) :
    (eraseId i l).foldl (applyCommitEntry applyP) b =
      l.foldl (applyCommitEntry applyP) b := by
  induction l generalizing b with
  | nil => rfl
  | cons a t ih =>
      by_cases ha : entryId a = some i
      · rw [show eraseId i (a :: t) = t from by simp [eraseId, ha]]
        rw [List.foldl_cons,
          applyCommitEntry_of_entryId_some applyP b a i ha]
      · rw [show eraseId i (a :: t) = a :: eraseId i t from by
          simp [eraseId, ha]]
        rw [List.foldl_cons, List.foldl_cons, ih]

theorem foldl_applyCommitEntry_filter_isOpt {π σ : Type}
    (applyP : π → σ → σ) (l : List (PendingEntry π σ)) (b : σ) :
    (l.filter isOpt).foldl (applyCommitEntry applyP) b = b := by
  induction l generalizing b with
  | nil => rfl
  | cons a t ih =>
      cases a with
      | commit p u => simpa [List.filter, isOpt] using ih b
      | optimistic u =>
          simpa [List.filter, isOpt, List.foldl_cons, applyCommitEntry]
            using ih b

theorem filter_isOpt_idem {π σ : Type} (l : List (PendingEntry π σ)) :
    (l.filter isOpt).filter isOpt = l.filter isOpt := by
  induction l with
  | nil => rfl
  | cons a t ih =>
      cases a with
      | commit p u => simpa [List.filter, isOpt] using ih
      | optimistic u => simpa [List.filter, isOpt] using ih

/-
Publish queue lemmas: a second run right after a run changes nothing,
and run ignores the previously published value.
-/

theorem pqRun_congr {π σ : Type} (applyP : π → σ → σ)
    (q1 q2 : PQState π σ) (hb : q1.base = q2.base)
    (hp : q1.pending = q2.pending) :
    pqRun applyP q1 = pqRun applyP q2 := by
  simp [pqRun, hb, hp]

theorem pqRun_idem {π σ : Type} (applyP : π → σ → σ)
    (q : PQState π σ) : pqRun applyP (pqRun applyP q) = pqRun applyP q := by
  simp [pqRun, foldl_applyCommitEntry_filter_isOpt, filter_isOpt_idem]

theorem pqRevertUpdate_of_not_mem {π σ : Type} (i : Nat)
    (q : PQState π σ) (h : i ∉ pendingIds q.pending) :
    pqRevertUpdate i q = q := by
  simp [pqRevertUpdate, eraseId_eq_self i q.pending h]

/-
Rollback simulation: a queue holding one extra optimistic entry stays
in lockstep, on base and on erased pending list, with the queue that
never received it, across all operations not naming that entry.
-/

/-- Simulation invariant between the queue that holds the optimistic
entry with identity i (qw) and the queue that never received it (qo). -/
def SimInv {π σ : Type} (i : Nat) (qw qo : PQState π σ) : Prop :=
  qw.base = qo.base ∧ eraseId i qw.pending = qo.pending ∧
    i ∉ pendingIds qo.pending

theorem simInv_step {π σ : Type} (applyP : π → σ → σ) (i : Nat)
    (op : QOp π σ) (hop : touches i op = false) (qw qo : PQState π σ)
    (hInv : SimInv i qw qo) :
    SimInv i (execOp applyP qw op) (execOp applyP qo op) := by
  obtain ⟨hb, hp, hn⟩ := hInv
  cases op with
  | applyU u =>
      have hu : u.id ≠ i := by simpa [touches] using hop
      refine ⟨hb, ?_, ?_⟩
      · show eraseId i (qw.pending ++ [.optimistic u]) =
          qo.pending ++ [.optimistic u]
        rw [eraseId_append_single i qw.pending _ (by simp [entryId, hu]),
          hp]
      · show i ∉ pendingIds (qo.pending ++ [.optimistic u])
        rw [pendingIds_append]
        intro hc
        rcases List.mem_append.mp hc with h1 | h2
        · exact hn h1
        · simp [pendingIds, entryId] at h2
          exact hu h2.symm
  | revertU j =>
      have hj : j ≠ i := by simpa [touches] using hop
      refine ⟨hb, ?_, ?_⟩
      · show eraseId i (eraseId j qw.pending) = eraseId j qo.pending
        rw [eraseId_comm i j (fun hc => hj hc.symm), hp]
      · exact not_mem_pendingIds_eraseId i j qo.pending hn
  | commitP p upd =>
      refine ⟨hb, ?_, ?_⟩
      · show eraseId i (qw.pending ++ [.commit p upd]) =
          qo.pending ++ [.commit p upd]
        rw [eraseId_append_single i qw.pending _ (by simp [entryId]), hp]
      · show i ∉ pendingIds (qo.pending ++ [.commit p upd])
        rw [pendingIds_append]
        intro hc
        rcases List.mem_append.mp hc with h1 | h2
        · exact hn h1
        · simp [pendingIds, entryId] at h2
  | run =>
      refine ⟨?_, ?_, ?_⟩
      · show qw.pending.foldl (applyCommitEntry applyP) qw.base =
          qo.pending.foldl (applyCommitEntry applyP) qo.base
        rw [hb, ← hp, foldl_applyCommitEntry_eraseId]
      · show eraseId i (qw.pending.filter isOpt) =
          qo.pending.filter isOpt
        rw [eraseId_filter_isOpt, hp]
      · show i ∉ pendingIds (qo.pending.filter isOpt)
        rw [pendingIds_filter_isOpt]
        exact hn

theorem simInv_exec {π σ : Type} (applyP : π → σ → σ) (i : Nat)
    (ops : List (QOp π σ)) (hops : ∀ op ∈ ops, touches i op = false)
    (qw qo : PQState π σ) (hInv : SimInv i qw qo) :
    SimInv i (execOps applyP qw ops) (execOps applyP qo ops) := by
  induction ops generalizing qw qo with
  | nil => exact hInv
  | cons op rest ih =>
      have h1 := simInv_step applyP i op
        (hops op (List.mem_cons_self op rest)) qw qo hInv
      exact ih (fun o ho => hops o (List.mem_cons_of_mem op ho)) _ _ h1

theorem simInv_init {π σ : Type} (applyP : π → σ → σ) (U : Updater σ)
    (q0 : PQState π σ) (h : U.id ∉ pendingIds q0.pending) :
    SimInv U.id (execOps applyP q0 [.applyU U, .run])
      (execOps applyP q0 [.run]) := by
  refine ⟨?_, ?_, ?_⟩
  · show (q0.pending ++ [PendingEntry.optimistic U]).foldl
        (applyCommitEntry applyP) q0.base =
      q0.pending.foldl (applyCommitEntry applyP) q0.base
    rw [List.foldl_append]
    rfl
  · show eraseId U.id
        ((q0.pending ++ [PendingEntry.optimistic U]).filter isOpt) =
      q0.pending.filter isOpt
    rw [List.filter_append]
    have h2 : U.id ∉ pendingIds (q0.pending.filter isOpt) := by
      rw [pendingIds_filter_isOpt]; exact h
    rw [eraseId_append_of_not_mem U.id _ _ h2]
    simp [List.filter, isOpt, eraseId, entryId]
  · show U.id ∉ pendingIds (q0.pending.filter isOpt)
    rw [pendingIds_filter_isOpt]
    exact h

theorem simInv_final {π σ : Type} (applyP : π → σ → σ) (i : Nat)
    (qw qo : PQState π σ) (hInv : SimInv i qw qo) :
    execOps applyP qw [.revertU i, .run] =
      execOps applyP qo [.revertU i, .run] := by
  obtain ⟨hb, hp, hn⟩ := hInv
  show pqRun applyP (pqRevertUpdate i qw) =
    pqRun applyP (pqRevertUpdate i qo)
  apply pqRun_congr
  · exact hb
  · show eraseId i qw.pending = eraseId i qo.pending
    rw [hp, eraseId_eq_self i qo.pending hn]

/-- Core rollback exactness: applying an optimistic update, running,
performing any sequence of queue operations not naming it, reverting
it and running again ends in exactly the state reached by the same
sequence without the initial apply. -/
theorem rollback_core {π σ : Type} (applyP : π → σ → σ)
    (q0 : PQState π σ) (U : Updater σ) (ops : List (QOp π σ))
    (hU : U.id ∉ pendingIds q0.pending)
    (hops : ∀ op ∈ ops, touches U.id op = false) :
    execOps applyP q0 ([.applyU U, .run] ++ ops ++ [.revertU U.id, .run]) =
      execOps applyP q0 ([.run] ++ ops ++ [.revertU U.id, .run]) := by
  have hw : execOps applyP q0
      ([.applyU U, .run] ++ ops ++ [.revertU U.id, .run]) =
      execOps applyP
        (execOps applyP (execOps applyP q0 [.applyU U, .run]) ops)
        [.revertU U.id, .run] := by
    simp [execOps, List.foldl_append]
  have ho : execOps applyP q0 ([.run] ++ ops ++ [.revertU U.id, .run]) =
      execOps applyP (execOps applyP (execOps applyP q0 [.run]) ops)
        [.revertU U.id, .run] := by
    simp [execOps, List.foldl_append]
  rw [hw, ho]
  exact simInv_final applyP U.id _ _
    (simInv_exec applyP U.id ops hops _ _ (simInv_init applyP U q0 hU))

/-
Mutation scenario computations.
-/

theorem eraseId_filter_append_opt {π σ : Type} (u : Updater σ)
    (l : List (PendingEntry π σ)) (h : u.id ∉ pendingIds l) :
    eraseId u.id ((l ++ [PendingEntry.optimistic u]).filter isOpt) =
      l.filter isOpt := by
  rw [List.filter_append]
  have h2 : u.id ∉ pendingIds (l.filter isOpt) := by
    rw [pendingIds_filter_isOpt]; exact h
  rw [eraseId_append_of_not_mem u.id _ _ h2]
  simp [List.filter, isOpt, eraseId, entryId]

theorem foldl_applyCommitEntry_append_opt {π σ : Type}
    (applyP : π → σ → σ) (u : Updater σ) (l : List (PendingEntry π σ))
    (b : σ) :
    (l ++ [PendingEntry.optimistic u]).foldl (applyCommitEntry applyP)
      b = l.foldl (applyCommitEntry applyP) b := by
  rw [List.foldl_append]
  rfl

theorem mem_pendingIds_filter_append_opt {π σ : Type} (u : Updater σ)
    (l : List (PendingEntry π σ)) :
    u.id ∈ pendingIds ((l ++ [PendingEntry.optimistic u]).filter isOpt) := by
  rw [pendingIds_filter_isOpt, pendingIds_append]
  simp [pendingIds, entryId]

theorem eraseId_append_opt_self {π σ : Type} (u : Updater σ)
    (l : List (PendingEntry π σ)) (h : u.id ∉ pendingIds l) :
    eraseId u.id (l ++ [PendingEntry.optimistic u]) = l := by
  rw [eraseId_append_of_not_mem u.id _ _ h]
  simp [eraseId, entryId]

theorem mutation_rollback_queue_eq {π σ : Type} (applyP : π → σ → σ)
    (u : Updater σ) (q0 : PQState π σ)
    (h : u.id ∉ pendingIds q0.pending) :
    pqRun applyP (pqRevertUpdate u.id (pqRun applyP (pqApplyUpdate u q0))) =
      pqRun applyP q0 := by
  have h2 : u.id ∉ pendingIds (q0.pending.filter isOpt) := by
    rw [pendingIds_filter_isOpt]; exact h
  simp only [pqApplyUpdate, pqRun, pqRevertUpdate, List.filter_append,
    List.foldl_append]
  simp only [List.filter, List.foldl, isOpt, applyCommitEntry]
  simp only [eraseId_append_opt_self u _ h2, filter_isOpt_idem,
    foldl_applyCommitEntry_filter_isOpt]

theorem mutation_commit_queue_eq {π σ : Type} (applyP : π → σ → σ)
    (u : Updater σ) (p : π) (upd : Option (σ → σ)) (q0 : PQState π σ)
    (h : u.id ∉ pendingIds q0.pending) :
    pqRun applyP (pqCommitPayload p upd
        (pqRevertUpdate u.id (pqRun applyP (pqApplyUpdate u q0)))) =
      pqRun applyP (pqCommitPayload p upd q0) := by
  have h2 : u.id ∉ pendingIds (q0.pending.filter isOpt) := by
    rw [pendingIds_filter_isOpt]; exact h
  simp only [pqApplyUpdate, pqRun, pqRevertUpdate, pqCommitPayload,
    List.filter_append, List.foldl_append]
  simp only [List.filter, List.foldl, isOpt, applyCommitEntry]
  simp only [eraseId_append_opt_self u _ h2, filter_isOpt_idem,
    foldl_applyCommitEntry_filter_isOpt]

theorem runMutation_reject_eq {π σ : Type} (applyP : π → σ → σ)
    (u : Updater σ) (upd : Option (σ → σ)) (e : Nat)
    (q0 : PQState π σ) (h : u.id ∉ pendingIds q0.pending) :
    runMutation applyP (some u) upd [.reject e] (mkEnv q0) =
      (⟨false, some u⟩,
       { queue := pqRun applyP q0,
         trace := [.applyUpdate u.id, .run, .revertUpdate u.id true,
                   .run, .onError (.transport e)] }) := by
  have hmem := mem_pendingIds_filter_append_opt u q0.pending
  have hq := mutation_rollback_queue_eq applyP u q0 h
  simp only [runMutation, List.foldl_cons, List.foldl_nil,
    sendMutationInit, mutStep, mutReject, mkEnv, envApplyUpdate,
    envRun, envRevertUpdate, envOnError]
  rw [if_neg (by simp)]
  simp only [Prod.mk.injEq, EnvSt.mk.injEq]
  refine ⟨trivial, hq, ?_⟩
  have hpend : (pqRun applyP (pqApplyUpdate u q0)).pending =
      (q0.pending ++ [PendingEntry.optimistic u]).filter isOpt := rfl
  rw [hpend, decide_eq_true hmem]
  simp

theorem runMutation_resolve_eq {π σ : Type} (applyP : π → σ → σ)
    (u : Updater σ) (upd : Option (σ → σ)) (p : π)
    (q0 : PQState π σ) (h : u.id ∉ pendingIds q0.pending) :
    runMutation applyP (some u) upd [.resolve p] (mkEnv q0) =
      (⟨false, some u⟩,
       { queue := pqRun applyP (pqCommitPayload p upd q0),
         trace := [.applyUpdate u.id, .run, .revertUpdate u.id true,
                   .commitPayload upd.isSome, .run, .onCompleted] }) := by
  have hmem := mem_pendingIds_filter_append_opt u q0.pending
  have hq := mutation_commit_queue_eq applyP u p upd q0 h
  simp only [runMutation, List.foldl_cons, List.foldl_nil,
    sendMutationInit, mutStep, mutResolve, mkEnv, envApplyUpdate,
    envRun, envRevertUpdate, envCommitPayload, envOnCompleted]
  rw [if_neg (by simp)]
  simp only [Prod.mk.injEq, EnvSt.mk.injEq]
  refine ⟨trivial, hq, ?_⟩
  have hpend : (pqRun applyP (pqApplyUpdate u q0)).pending =
      (q0.pending ++ [PendingEntry.optimistic u]).filter isOpt := rfl
  rw [hpend, decide_eq_true hmem]
  simp

theorem runMutation_resolve_none_eq {π σ : Type} (applyP : π → σ → σ)
    (upd : Option (σ → σ)) (p : π) (q0 : PQState π σ) :
    runMutation applyP none upd [.resolve p] (mkEnv q0) =
      (⟨false, none⟩,
       { queue := pqRun applyP (pqCommitPayload p upd q0),
         trace := [.commitPayload upd.isSome, .run, .onCompleted] }) := by
  simp only [runMutation, List.foldl_cons, List.foldl_nil,
    sendMutationInit, mutStep, mutResolve, mkEnv, envCommitPayload,
    envRun, envOnCompleted]
  rw [if_neg (by simp)]
  simp

theorem runMutation_dispose_eq {π σ : Type} (applyP : π → σ → σ)
    (u : Updater σ) (upd : Option (σ → σ)) (q0 : PQState π σ)
    (h : u.id ∉ pendingIds q0.pending) :
    runMutation applyP (some u) upd [.dispose] (mkEnv q0) =
      (⟨true, none⟩,
       { queue := pqRun applyP q0,
         trace := [.applyUpdate u.id, .run, .revertUpdate u.id true,
                   .run] }) := by
  have hmem := mem_pendingIds_filter_append_opt u q0.pending
  have hq := mutation_rollback_queue_eq applyP u q0 h
  simp only [runMutation, List.foldl_cons, List.foldl_nil,
    sendMutationInit, mutStep, mutDispose, mkEnv, envApplyUpdate,
    envRun, envRevertUpdate]
  simp only [Prod.mk.injEq, EnvSt.mk.injEq]
  refine ⟨trivial, hq, ?_⟩
  have hpend : (pqRun applyP (pqApplyUpdate u q0)).pending =
      (q0.pending ++ [PendingEntry.optimistic u]).filter isOpt := rfl
  rw [hpend, decide_eq_true hmem]
  simp

theorem not_mem_pendingIds_pqRun {π σ : Type} (applyP : π → σ → σ)
    (i : Nat) (q : PQState π σ) (h : i ∉ pendingIds q.pending) :
    i ∉ pendingIds (pqRun applyP q).pending := by
  show i ∉ pendingIds (q.pending.filter isOpt)
  rw [pendingIds_filter_isOpt]
  exact h

theorem not_mem_pendingIds_pqCommitPayload {π σ : Type} (i : Nat)
    (p : π) (upd : Option (σ → σ)) (q : PQState π σ)
    (h : i ∉ pendingIds q.pending) :
    i ∉ pendingIds (pqCommitPayload p upd q).pending := by
  show i ∉ pendingIds (q.pending ++ [PendingEntry.commit p upd])
  rw [pendingIds_append]
  intro hc
  rcases List.mem_append.mp hc with h1 | h2
  · exact h h1
  · simp [pendingIds, entryId] at h2

theorem mutDispose_inert_eq {π σ : Type} (applyP : π → σ → σ)
    (u : Updater σ) (q : PQState π σ) (tr : List Ev)
    (hq : pqRun applyP q = q) (hn : u.id ∉ pendingIds q.pending) :
    mutDispose applyP (⟨false, some u⟩, { queue := q, trace := tr }) =
      (⟨true, none⟩,
       { queue := q,
         trace := tr ++ [.revertUpdate u.id false, .run] }) := by
  simp only [mutDispose, envRun, envRevertUpdate]
  rw [pqRevertUpdate_of_not_mem u.id q hn, hq,
    decide_eq_false hn]
  simp

theorem mutStep_dispose_fixed {π σ : Type} (applyP : π → σ → σ)
    (upd : Option (σ → σ)) (env : EnvSt π σ) :
    mutStep applyP upd (⟨true, none⟩, env) .dispose =
      (⟨true, none⟩, env) := rfl

theorem mutStep_resolve_inert {π σ : Type} (applyP : π → σ → σ)
    (upd : Option (σ → σ)) (o : Option (Updater σ)) (p : π)
    (env : EnvSt π σ) :
    mutStep applyP upd (⟨true, o⟩, env) (.resolve p) =
      (⟨true, o⟩, env) := rfl

theorem mutStep_reject_inert {π σ : Type} (applyP : π → σ → σ)
    (upd : Option (σ → σ)) (o : Option (Updater σ)) (e : Nat)
    (env : EnvSt π σ) :
    mutStep applyP upd (⟨true, o⟩, env) (.reject e) =
      (⟨true, o⟩, env) := rfl

theorem foldl_replicate_fixed {α β : Type _} (f : β → α → β) (a : α)
    (s : β) (hf : f s a = s) (n : Nat) :
    (List.replicate n a).foldl f s = s := by
  induction n with
  | zero => rfl
  | succ k ih => rw [List.replicate_succ, List.foldl_cons, hf]; exact ih

theorem runMutation_cons {π σ : Type} (applyP : π → σ → σ)
    (opt : Option (Updater σ)) (upd : Option (σ → σ)) (x : MutStep π)
    (xs : List (MutStep π)) (env : EnvSt π σ) :
    runMutation applyP opt upd (x :: xs) env =
      xs.foldl (mutStep applyP upd) (runMutation applyP opt upd [x] env) := by
  simp [runMutation, List.foldl_cons, List.foldl_nil]

theorem mutStep_dispose {π σ : Type} (applyP : π → σ → σ)
    (upd : Option (σ → σ)) (s : MutSt σ × EnvSt π σ) :
    mutStep applyP upd s .dispose = mutDispose applyP s := rfl

theorem runMutation_reject_disposes_succ_eq {π σ : Type}
    (applyP : π → σ → σ) (u : Updater σ) (upd : Option (σ → σ))
    (e : Nat) (q0 : PQState π σ) (k : Nat)
    (h : u.id ∉ pendingIds q0.pending) :
    runMutation applyP (some u) upd
        (.reject e :: List.replicate (k + 1) .dispose) (mkEnv q0) =
      (⟨true, none⟩,
       { queue := pqRun applyP q0,
         trace := [.applyUpdate u.id, .run, .revertUpdate u.id true,
                   .run, .onError (.transport e),
                   .revertUpdate u.id false, .run] }) := by
  rw [runMutation_cons, runMutation_reject_eq applyP u upd e q0 h,
    List.replicate_succ, List.foldl_cons, mutStep_dispose,
    mutDispose_inert_eq applyP u (pqRun applyP q0) _
      (pqRun_idem applyP q0) (not_mem_pendingIds_pqRun applyP u.id q0 h)]
  rw [foldl_replicate_fixed (mutStep applyP upd) .dispose _
    (mutStep_dispose_fixed applyP upd _) k]
  simp

/-- C1: for a mutation with an optimistic updater whose transport
promise rejects while the operation is not disposed, the environment
calls revertUpdate on the optimistic entry, then run, restoring the
published store to its pre-mutation state, then invokes onError
exactly once with the rejection reason, and no commitPayload occurs on
this path, regardless of how many dispose calls follow settlement. -/
theorem mutation_failure_path {π σ : Type} (applyP : π → σ → σ)
    (q0 : PQState π σ) (u : Updater σ) (upd : Option (σ → σ))
    (e : Nat) (d : Nat) (hfresh : u.id ∉ pendingIds q0.pending)
    (hstable : pqRun applyP q0 = q0) :
    callbacksOf (runMutation applyP (some u) upd
        (.reject e :: List.replicate d .dispose)
        (mkEnv q0)).2.trace = [.onError (.transport e)] ∧
    (runMutation applyP (some u) upd
        (.reject e :: List.replicate d .dispose)
        (mkEnv q0)).2.trace.filter Ev.isCommit = [] ∧
    (runMutation applyP (some u) upd
        (.reject e :: List.replicate d .dispose)
        (mkEnv q0)).2.trace.take 5 =
      [.applyUpdate u.id, .run, .revertUpdate u.id true, .run,
       .onError (.transport e)] ∧
    (runMutation applyP (some u) upd
        (.reject e :: List.replicate d .dispose)
        (mkEnv q0)).2.queue.published = q0.published := by
  cases d with
  | zero =>
      rw [List.replicate_zero]
      rw [runMutation_reject_eq applyP u upd e q0 hfresh]
      refine ⟨?_, ?_, ?_, ?_⟩ <;>
        simp [callbacksOf, Ev.isCallback, Ev.isCommit, hstable]
  | succ k =>
      rw [runMutation_reject_disposes_succ_eq applyP u upd e q0 k hfresh]
      refine ⟨?_, ?_, ?_, ?_⟩ <;>
        simp [callbacksOf, Ev.isCallback, Ev.isCommit, hstable]

/-- Witness for C1 at a concrete instance: store state Int, starting
queue with base and published 5, optimistic updater with identity 1
adding one, rejection reason 7, one trailing dispose. -/
theorem mutation_failure_path_witness :
    ((1 : Nat) ∉ pendingIds ([] : List (PendingEntry Nat Int))) ∧
    pqRun (fun (p : Nat) (_ : Int) => (p : Int))
      (⟨5, [], 5⟩ : PQState Nat Int) = ⟨5, [], 5⟩ ∧
    (callbacksOf (runMutation (fun (p : Nat) (_ : Int) => (p : Int))
        (some ⟨1, fun s => s + 1⟩) none
        (.reject 7 :: List.replicate 1 .dispose)
        (mkEnv ⟨5, [], 5⟩)).2.trace = [.onError (.transport 7)] ∧
     (runMutation (fun (p : Nat) (_ : Int) => (p : Int))
        (some ⟨1, fun s => s + 1⟩) none
        (.reject 7 :: List.replicate 1 .dispose)
        (mkEnv ⟨5, [], 5⟩)).2.trace.filter Ev.isCommit = [] ∧
     (runMutation (fun (p : Nat) (_ : Int) => (p : Int))
        (some ⟨1, fun s => s + 1⟩) none
        (.reject 7 :: List.replicate 1 .dispose)
        (mkEnv ⟨5, [], 5⟩)).2.trace.take 5 =
       [.applyUpdate 1, .run, .revertUpdate 1 true, .run,
        .onError (.transport 7)] ∧
     (runMutation (fun (p : Nat) (_ : Int) => (p : Int))
        (some ⟨1, fun s => s + 1⟩) none
        (.reject 7 :: List.replicate 1 .dispose)
        (mkEnv ⟨5, [], 5⟩)).2.queue.published = 5) :=
  ⟨by simp [pendingIds], rfl,
   mutation_failure_path (fun (p : Nat) (_ : Int) => (p : Int)) ⟨5, [], 5⟩
     ⟨1, fun s => s + 1⟩ none 7 1 (by simp [pendingIds]) rfl⟩

/-- C2: for a mutation whose transport promise resolves while the
operation is not disposed, the environment first reverts the
optimistic entry when one exists, then commits the server payload with
the caller updater attached, then runs, then invokes onCompleted; the
resulting queue is exactly the one obtained by committing the server
payload alone, so the store reflects the server-confirmed values and
not the optimistic prediction. -/
theorem mutation_success_path {π σ : Type} (applyP : π → σ → σ)
    (q0 : PQState π σ) (opt : Option (Updater σ))
    (upd : Option (σ → σ)) (p : π)
    (hfresh : ∀ u ∈ opt, u.id ∉ pendingIds q0.pending) :
    (runMutation applyP opt upd [.resolve p] (mkEnv q0)).2.trace =
      (match opt with
       | some u => [.applyUpdate u.id, .run, .revertUpdate u.id true,
                    .commitPayload upd.isSome, .run, .onCompleted]
       | none => [.commitPayload upd.isSome, .run, .onCompleted]) ∧
    (runMutation applyP opt upd [.resolve p] (mkEnv q0)).2.queue =
      pqRun applyP (pqCommitPayload p upd q0) := by
  cases opt with
  | none => rw [runMutation_resolve_none_eq]; exact ⟨rfl, rfl⟩
  | some u =>
      rw [runMutation_resolve_eq applyP u upd p q0 (hfresh u (by simp))]
      exact ⟨rfl, rfl⟩

/-- Witness for C2 at a concrete instance: optimistic prediction adds
one to the published value 5, the server answers 42, and the final
queue is the plain commit of 42. -/
theorem mutation_success_path_witness :
    (∀ u ∈ (some ⟨1, fun s => s + 1⟩ : Option (Updater Int)),
      u.id ∉ pendingIds ([] : List (PendingEntry Nat Int))) ∧
    ((runMutation (fun (p : Nat) (_ : Int) => (p : Int))
        (some ⟨1, fun s => s + 1⟩) none [.resolve 42]
        (mkEnv ⟨5, [], 5⟩)).2.trace =
      [.applyUpdate 1, .run, .revertUpdate 1 true,
       .commitPayload false, .run, .onCompleted] ∧
     (runMutation (fun (p : Nat) (_ : Int) => (p : Int))
        (some ⟨1, fun s => s + 1⟩) none [.resolve 42]
        (mkEnv ⟨5, [], 5⟩)).2.queue =
      pqRun (fun (p : Nat) (_ : Int) => (p : Int))
        (pqCommitPayload 42 none ⟨5, [], 5⟩)) :=
  ⟨by simp [pendingIds],
   mutation_success_path (fun (p : Nat) (_ : Int) => (p : Int))
     ⟨5, [], 5⟩ (some ⟨1, fun s => s + 1⟩) none 42
     (by simp [pendingIds])⟩

/-- C3: for any optimistic update U and any interleaving of other
queue operations in between, applying U and running, then later
reverting U and running, ends in exactly the queue state reached by
the same sequence with the initial apply omitted: rollback is exact
regardless of intervening queue activity. -/
theorem rollback_exactness {π σ : Type} (applyP : π → σ → σ)
    (q0 : PQState π σ) (U : Updater σ) (ops : List (QOp π σ))
    (hU : U.id ∉ pendingIds q0.pending)
    (hops : ∀ op ∈ ops, touches U.id op = false) :
    execOps applyP q0
        ([.applyU U, .run] ++ ops ++ [.revertU U.id, .run]) =
      execOps applyP q0 ([.run] ++ ops ++ [.revertU U.id, .run]) :=
  rollback_core applyP q0 U ops hU hops

/-- Witness for C3 at a concrete instance: the optimistic update with
identity 1 doubles the store value, interleaved with another
optimistic update, a commit and a run. -/
theorem rollback_exactness_witness :
    ((1 : Nat) ∉ pendingIds ([] : List (PendingEntry Nat Int))) ∧
    (∀ op ∈ ([.applyU ⟨2, fun s => s + 100⟩, .commitP 7 none, .run] :
        List (QOp Nat Int)), touches 1 op = false) ∧
    execOps (fun (p : Nat) (s : Int) => s + p) (⟨0, [], 0⟩ : PQState Nat Int)
        ([.applyU ⟨1, fun s => s * 2⟩, .run] ++
          [.applyU ⟨2, fun s => s + 100⟩, .commitP 7 none, .run] ++
          [.revertU 1, .run]) =
      execOps (fun (p : Nat) (s : Int) => s + p) (⟨0, [], 0⟩ : PQState Nat Int)
        ([.run] ++ [.applyU ⟨2, fun s => s + 100⟩, .commitP 7 none, .run] ++
          [.revertU 1, .run]) :=
  ⟨by simp [pendingIds],
   by simp [touches],
   rollback_exactness (fun (p : Nat) (s : Int) => s + p) ⟨0, [], 0⟩
     ⟨1, fun s => s * 2⟩
     [.applyU ⟨2, fun s => s + 100⟩, .commitP 7 none, .run]
     (by simp [pendingIds]) (by simp [touches])⟩

/-- C5: disposing a query before the transport settles makes the
eventual settlement, fulfillment or rejection alike, leave the
environment completely untouched: no commitPayload, no run, no store
write and no callback invocation happen for that operation. -/
theorem query_disposal_suppression {π σ : Type} (applyP : π → σ → σ)
    (env0 : EnvSt π σ) (d : Nat) (p : π) (e : Nat) :
    runQuery applyP (List.replicate (d + 1) .dispose ++ [.resolve p])
        env0 = (⟨true⟩, env0) ∧
    runQuery applyP (List.replicate (d + 1) .dispose ++ [.reject e])
        env0 = (⟨true⟩, env0) := by
  have hdisp : (List.replicate d (QueryStep.dispose (π := π))).foldl
      (queryStep applyP) (⟨true⟩, env0) = (⟨true⟩, env0) :=
    foldl_replicate_fixed (queryStep applyP) .dispose (⟨true⟩, env0)
      rfl d
  constructor <;>
  · show (List.replicate (d + 1) QueryStep.dispose ++ _).foldl
      (queryStep applyP) (⟨false⟩, env0) = (⟨true⟩, env0)
    simp only [List.foldl_append, List.replicate_succ,
      List.foldl_cons, List.foldl_nil]
    rw [show queryStep applyP ((⟨false⟩ : QuerySt), env0)
        QueryStep.dispose = (⟨true⟩, env0) from rfl, hdisp]
    rfl

theorem runMutation_resolve_disposes_succ_eq {π σ : Type}
    (applyP : π → σ → σ) (u : Updater σ) (upd : Option (σ → σ))
    (p : π) (q0 : PQState π σ) (k : Nat)
    (h : u.id ∉ pendingIds q0.pending) :
    runMutation applyP (some u) upd
        (.resolve p :: List.replicate (k + 1) .dispose) (mkEnv q0) =
      (⟨true, none⟩,
       { queue := pqRun applyP (pqCommitPayload p upd q0),
         trace := [.applyUpdate u.id, .run, .revertUpdate u.id true,
                   .commitPayload upd.isSome, .run, .onCompleted,
                   .revertUpdate u.id false, .run] }) := by
  rw [runMutation_cons, runMutation_resolve_eq applyP u upd p q0 h,
    List.replicate_succ, List.foldl_cons, mutStep_dispose,
    mutDispose_inert_eq applyP u _ _ (pqRun_idem applyP _)
      (not_mem_pendingIds_pqRun applyP u.id _
        (not_mem_pendingIds_pqCommitPayload u.id p upd q0 h))]
  rw [foldl_replicate_fixed (mutStep applyP upd) .dispose _
    (mutStep_dispose_fixed applyP upd _) k]
  simp

theorem foldl_mutStep_disposed_fixed {π σ : Type}
    (applyP : π → σ → σ) (upd : Option (σ → σ)) (env : EnvSt π σ)
    (steps : List (MutStep π)) :
    steps.foldl (mutStep applyP upd) (⟨true, none⟩, env) =
      (⟨true, none⟩, env) := by
  induction steps with
  | nil => rfl
  | cons x rest ih =>
      rw [List.foldl_cons]
      cases x with
      | dispose => rw [mutStep_dispose_fixed]; exact ih
      | resolve p => rw [mutStep_resolve_inert]; exact ih
      | reject e => rw [mutStep_reject_inert]; exact ih

theorem runMutation_dispose_then_any_eq {π σ : Type}
    (applyP : π → σ → σ) (u : Updater σ) (upd : Option (σ → σ))
    (q0 : PQState π σ) (rest : List (MutStep π))
    (h : u.id ∉ pendingIds q0.pending) :
    runMutation applyP (some u) upd (.dispose :: rest) (mkEnv q0) =
      (⟨true, none⟩,
       { queue := pqRun applyP q0,
         trace := [.applyUpdate u.id, .run, .revertUpdate u.id true,
                   .run] }) := by
  rw [runMutation_cons, runMutation_dispose_eq applyP u upd q0 h,
    foldl_mutStep_disposed_fixed]

/-- C4: for a mutation with an optimistic updater, the optimistic
entry is queued exactly once during the awaiting window, is removed
from the queue exactly once across every terminal interleaving of
disposes with a success or failure settlement (the trace contains
exactly one effective revertUpdate and the final queue holds no
matching entry), disposing twice equals disposing once, and disposing
after the mutation resolved changes neither the published store nor
the callback history. -/
theorem mutation_entry_lifecycle {π σ : Type} (applyP : π → σ → σ)
    (q0 : PQState π σ) (u : Updater σ) (upd : Option (σ → σ))
    (p : π) (e : Nat) (d1 d2 : Nat)
    (hfresh : u.id ∉ pendingIds q0.pending) :
    (pendingIds (sendMutationInit applyP (some u)
        (mkEnv q0)).2.queue.pending).count u.id = 1 ∧
    ((pendingIds (runMutation applyP (some u) upd
        (List.replicate d1 .dispose ++ [.resolve p] ++
          List.replicate d2 .dispose)
        (mkEnv q0)).2.queue.pending).count u.id = 0 ∧
     ((runMutation applyP (some u) upd
        (List.replicate d1 .dispose ++ [.resolve p] ++
          List.replicate d2 .dispose)
        (mkEnv q0)).2.trace.filter (Ev.isEffRemove u.id)).length = 1) ∧
    ((pendingIds (runMutation applyP (some u) upd
        (List.replicate d1 .dispose ++ [.reject e] ++
          List.replicate d2 .dispose)
        (mkEnv q0)).2.queue.pending).count u.id = 0 ∧
     ((runMutation applyP (some u) upd
        (List.replicate d1 .dispose ++ [.reject e] ++
          List.replicate d2 .dispose)
        (mkEnv q0)).2.trace.filter (Ev.isEffRemove u.id)).length = 1) ∧
    (∀ s : MutSt σ × EnvSt π σ,
      mutDispose applyP (mutDispose applyP s) = mutDispose applyP s) ∧
    (callbacksOf (mutDispose applyP (runMutation applyP (some u) upd
        [.resolve p] (mkEnv q0))).2.trace =
      callbacksOf (runMutation applyP (some u) upd [.resolve p]
        (mkEnv q0)).2.trace ∧
     (mutDispose applyP (runMutation applyP (some u) upd [.resolve p]
        (mkEnv q0))).2.queue.published =
      (runMutation applyP (some u) upd [.resolve p]
        (mkEnv q0)).2.queue.published) := by
  have hawait : (pendingIds (sendMutationInit applyP (some u)
      (mkEnv q0)).2.queue.pending).count u.id = 1 := by
    show (pendingIds ((q0.pending ++
      [PendingEntry.optimistic u]).filter isOpt)).count u.id = 1
    rw [pendingIds_filter_isOpt, pendingIds_append, List.count_append,
      List.count_eq_zero.mpr hfresh]
    simp [pendingIds, entryId]
  have hres0 : u.id ∉ pendingIds
      (pqRun applyP (pqCommitPayload p upd q0)).pending :=
    not_mem_pendingIds_pqRun applyP u.id _
      (not_mem_pendingIds_pqCommitPayload u.id p upd q0 hfresh)
  have hrun0 : u.id ∉ pendingIds (pqRun applyP q0).pending :=
    not_mem_pendingIds_pqRun applyP u.id q0 hfresh
  refine ⟨hawait, ?_, ?_, ?_, ?_⟩
  · cases d1 with
    | zero =>
        cases d2 with
        | zero =>
            simp only [List.replicate_zero, List.nil_append,
              List.append_nil]
            rw [runMutation_resolve_eq applyP u upd p q0 hfresh]
            refine ⟨List.count_eq_zero.mpr hres0, ?_⟩
            simp [Ev.isEffRemove]
        | succ k =>
            simp only [List.replicate_zero, List.nil_append,
              List.singleton_append]
            rw [runMutation_resolve_disposes_succ_eq applyP u upd p q0
              k hfresh]
            refine ⟨List.count_eq_zero.mpr hres0, ?_⟩
            simp [Ev.isEffRemove]
    | succ k =>
        simp only [List.replicate_succ, List.cons_append]
        rw [runMutation_dispose_then_any_eq applyP u upd q0 _ hfresh]
        refine ⟨List.count_eq_zero.mpr hrun0, ?_⟩
        simp [Ev.isEffRemove]
  · cases d1 with
    | zero =>
        cases d2 with
        | zero =>
            simp only [List.replicate_zero, List.nil_append,
              List.append_nil]
            rw [runMutation_reject_eq applyP u upd e q0 hfresh]
            refine ⟨List.count_eq_zero.mpr hrun0, ?_⟩
            simp [Ev.isEffRemove]
        | succ k =>
            simp only [List.replicate_zero, List.nil_append,
              List.singleton_append]
            rw [runMutation_reject_disposes_succ_eq applyP u upd e q0
              k hfresh]
            refine ⟨List.count_eq_zero.mpr hrun0, ?_⟩
            simp [Ev.isEffRemove]
    | succ k =>
        simp only [List.replicate_succ, List.cons_append]
        rw [runMutation_dispose_then_any_eq applyP u upd q0 _ hfresh]
        refine ⟨List.count_eq_zero.mpr hrun0, ?_⟩
        simp [Ev.isEffRemove]
  · intro s
    rcases s with ⟨⟨isD, optU⟩, env⟩
    cases optU <;> rfl
  · rw [runMutation_resolve_eq applyP u upd p q0 hfresh,
      mutDispose_inert_eq applyP u _ _ (pqRun_idem applyP _) hres0]
    constructor
    · simp [callbacksOf, Ev.isCallback]
    · rfl

/-- Concrete payload interpretation used by witnesses: a committed
payload overwrites the store value. -/
def wApply : Nat → Int → Int := fun p _ => (p : Int)

/-- Concrete starting queue used by witnesses. -/
def wQ0 : PQState Nat Int := ⟨5, [], 5⟩

/-- Concrete optimistic updater used by witnesses. -/
def wU : Updater Int := ⟨1, fun s => s + 1⟩

/-- Witness for C4 at a concrete instance with one dispose before and
one after settlement. -/
theorem mutation_entry_lifecycle_witness :
    (wU.id ∉ pendingIds wQ0.pending) ∧
    ((pendingIds (sendMutationInit wApply (some wU)
        (mkEnv wQ0)).2.queue.pending).count wU.id = 1 ∧
    ((pendingIds (runMutation wApply (some wU) none
        (List.replicate 1 .dispose ++ [.resolve 42] ++
          List.replicate 1 .dispose)
        (mkEnv wQ0)).2.queue.pending).count wU.id = 0 ∧
     ((runMutation wApply (some wU) none
        (List.replicate 1 .dispose ++ [.resolve 42] ++
          List.replicate 1 .dispose)
        (mkEnv wQ0)).2.trace.filter (Ev.isEffRemove wU.id)).length = 1) ∧
    ((pendingIds (runMutation wApply (some wU) none
        (List.replicate 1 .dispose ++ [.reject 7] ++
          List.replicate 1 .dispose)
        (mkEnv wQ0)).2.queue.pending).count wU.id = 0 ∧
     ((runMutation wApply (some wU) none
        (List.replicate 1 .dispose ++ [.reject 7] ++
          List.replicate 1 .dispose)
        (mkEnv wQ0)).2.trace.filter (Ev.isEffRemove wU.id)).length = 1) ∧
    (∀ s : MutSt Int × EnvSt Nat Int,
      mutDispose wApply (mutDispose wApply s) = mutDispose wApply s) ∧
    (callbacksOf (mutDispose wApply (runMutation wApply (some wU) none
        [.resolve 42] (mkEnv wQ0))).2.trace =
      callbacksOf (runMutation wApply (some wU) none [.resolve 42]
        (mkEnv wQ0)).2.trace ∧
     (mutDispose wApply (runMutation wApply (some wU) none
        [.resolve 42] (mkEnv wQ0))).2.queue.published =
      (runMutation wApply (some wU) none [.resolve 42]
        (mkEnv wQ0)).2.queue.published)) :=
  ⟨by decide,
   mutation_entry_lifecycle wApply wQ0 wU none 42 7 1 1 (by decide)⟩

/-- C8: a terminal transport error on a subscription invokes onError
exactly once, a successful close commits the payload and invokes
onNext then onCompleted exactly once, and when the subscription was
disposed before the terminal event, the settlement leaves the
environment literally untouched: no onError, no onCompleted, no
further onNext and no store commit. -/
theorem subscription_terminal_events {σ : Type}
    (applyP : RelayResponsePayload → σ → σ) (op : ConcreteBatch)
    (vars : String) (d : PayloadData) (errs : Option (List GQLError))
    (raw : RawResponse) (e dd : Nat)
    (env0 : EnvSt RelayResponsePayload σ) :
    callbacksOf (runSub applyP op vars [.reject e] env0).2.trace =
      callbacksOf env0.trace ++ [.onError (.transport e)] ∧
    callbacksOf (runSub applyP op vars [.resolve ⟨some d, errs⟩]
        env0).2.trace =
      callbacksOf env0.trace ++ [.onNext, .onCompleted] ∧
    runSub applyP op vars (List.replicate (dd + 1) .dispose ++
        [.reject e]) env0 = (⟨true⟩, env0) ∧
    runSub applyP op vars (List.replicate (dd + 1) .dispose ++
        [.resolve raw]) env0 = (⟨true⟩, env0) := by
  have hdisp : (List.replicate dd SubStep.dispose).foldl
      (subStep applyP op vars) (⟨true⟩, env0) = (⟨true⟩, env0) :=
    foldl_replicate_fixed (subStep applyP op vars) .dispose
      (⟨true⟩, env0) rfl dd
  refine ⟨?_, ?_, ?_, ?_⟩
  · simp [runSub, subStep, envOnError, callbacksOf, Ev.isCallback,
      List.filter_append]
  · rcases errs with _ | ⟨_ | ⟨g, gs⟩⟩ <;>
      simp [runSub, subStep, normalizePayload, normalizeRelayPayload,
        envWarn, envCommitPayload, envRun, envOnNext, envOnCompleted,
        callbacksOf, Ev.isCallback, List.filter_append]
  · show (List.replicate (dd + 1) SubStep.dispose ++ _).foldl
      (subStep applyP op vars) (⟨false⟩, env0) = (⟨true⟩, env0)
    simp only [List.foldl_append, List.replicate_succ,
      List.foldl_cons, List.foldl_nil]
    rw [show subStep applyP op vars ((⟨false⟩ : SubSt), env0)
        SubStep.dispose = (⟨true⟩, env0) from rfl, hdisp]
    rfl
  · show (List.replicate (dd + 1) SubStep.dispose ++ _).foldl
      (subStep applyP op vars) (⟨false⟩, env0) = (⟨true⟩, env0)
    simp only [List.foldl_append, List.replicate_succ,
      List.foldl_cons, List.foldl_nil]
    rw [show subStep applyP op vars ((⟨false⟩ : SubSt), env0)
        SubStep.dispose = (⟨true⟩, env0) from rfl, hdisp]
    rfl

/-- Counterexample for C6 as stated: with a present but empty errors
list, the no-data error interpolates the empty joined string into its
message, not the sentinel placeholder, so the claim that the sentinel
is used when the errors list is absent or empty fails on the empty
list. -/
theorem noData_empty_errors_counterexample :
    normalizePayload ⟨"FooQuery", 0⟩ "v" ⟨none, some []⟩ =
      .error ⟨"FooQuery", "",
        some ⟨some [], ⟨"FooQuery", 0⟩, "v"⟩⟩ ∧
    noDataErrorsText (some []) = "" ∧
    noDataErrorsText (some []) ≠ "(No errors)" ∧
    RelayError.message ⟨"FooQuery", noDataErrorsText (some []),
        some ⟨some [], ⟨"FooQuery", 0⟩, "v"⟩⟩ ≠
      RelayError.message ⟨"FooQuery", "(No errors)",
        some ⟨some [], ⟨"FooQuery", 0⟩, "v"⟩⟩ := by
  refine ⟨rfl, rfl, ?_, ?_⟩ <;> decide

/-- C6 as amended: a response with null data yields no store write and
no commit, and fails with an error whose source carries the original
errors list, the operation and the variables; the sentinel placeholder
appears in the message exactly when the errors list is absent, while a
present but empty list yields the empty joined string. -/
theorem noData_error_structure {σ : Type}
    (applyP : RelayResponsePayload → σ → σ) (op : ConcreteBatch)
    (vars : String) (errs : Option (List GQLError))
    (env : EnvSt RelayResponsePayload σ) :
    normalizePayload op vars ⟨none, errs⟩ =
      .error ⟨op.name, noDataErrorsText errs,
        some ⟨errs, op, vars⟩⟩ ∧
    noDataErrorsText none = "(No errors)" ∧
    (∀ l, noDataErrorsText (some l) =
      String.intercalate "\n" (l.map GQLError.message)) ∧
    (runSub applyP op vars [.resolve ⟨none, errs⟩] env).2.queue =
      env.queue ∧
    (runSub applyP op vars [.resolve ⟨none, errs⟩] env).2.trace =
      env.trace ++ [.onError (.relay ⟨op.name, noDataErrorsText errs,
        some ⟨errs, op, vars⟩⟩)] := by
  refine ⟨rfl, rfl, fun l => rfl, ?_, ?_⟩ <;>
    simp [runSub, subStep, normalizePayload, envOnError]

/-- C7: a response carrying non-null data together with a non-empty
errors list is treated as success: the warning is emitted, the payload
is normalized with stripped null handling and committed, the queue is
run, and onNext then onCompleted fire with no error raised. -/
theorem partial_data_with_errors {σ : Type}
    (applyP : RelayResponsePayload → σ → σ) (op : ConcreteBatch)
    (vars : String) (d : PayloadData) (g : GQLError)
    (gs : List GQLError) (env : EnvSt RelayResponsePayload σ) :
    normalizePayload op vars ⟨some d, some (g :: gs)⟩ =
      .ok (normalizeRelayPayload ⟨ROOT_ID, op.query, vars⟩ d
        (some ⟨true⟩), true) ∧
    (runSub applyP op vars [.resolve ⟨some d, some (g :: gs)⟩]
        env).2.trace =
      env.trace ++ [.warn, .commitPayload false, .run, .onNext,
        .onCompleted] ∧
    (runSub applyP op vars [.resolve ⟨some d, some (g :: gs)⟩]
        env).2.queue =
      pqRun applyP (pqCommitPayload
        (normalizeRelayPayload ⟨ROOT_ID, op.query, vars⟩ d
          (some ⟨true⟩)) none env.queue) := by
  refine ⟨rfl, ?_, ?_⟩ <;>
    simp [runSub, subStep, normalizePayload, normalizeRelayPayload,
      envWarn, envCommitPayload, envRun, envOnNext, envOnCompleted]

/-- C9: network response normalization always invokes the payload
normalizer with stripped null handling turned on, while the direct
commitPayload method of the environment invokes it with the options
argument omitted, so the two paths hand the normalizer different
options. -/
theorem stripped_nulls_query_vs_commit {σ : Type}
    (applyP : RelayResponsePayload → σ → σ) (op : ConcreteBatch)
    (vars : String) (d : PayloadData) (errs : Option (List GQLError))
    (sel : Selector) (data : PayloadData)
    (env : EnvSt RelayResponsePayload σ) :
    (∃ w, normalizePayload op vars ⟨some d, errs⟩ =
        .ok (normalizeRelayPayload ⟨ROOT_ID, op.query, vars⟩ d
          (some ⟨true⟩), w) ∧
      (normalizeRelayPayload ⟨ROOT_ID, op.query, vars⟩ d
        (some ⟨true⟩)).options = some ⟨true⟩) ∧
    (commitPayloadMethod applyP sel data env =
      envRun applyP (envCommitPayload
        (normalizeRelayPayload sel data none) none env) ∧
     (normalizeRelayPayload sel data none).options = none) ∧
    (some (⟨true⟩ : NormalizeOptions) ≠
      (none : Option NormalizeOptions)) := by
  refine ⟨⟨(match errs with | some (_ :: _) => true | _ => false),
    rfl, rfl⟩, ⟨rfl, rfl⟩, by simp⟩

/-- C10: on successful completion, the onCompleted wrapper installed
by commitRelayStaticMutation delivers the data of a snapshot looked up
from the environment at completion time, that is, a value derived from
the post-commit published store, performing exactly one lookup; when
the config carries no onCompleted callback, no lookup is performed and
nothing is delivered. -/
theorem commitMutation_onCompleted_lookup {π σ δ : Type}
    (applyP : π → σ → σ) (lookup : σ → Selector → Snapshot δ)
    (fragment : Selector) (opt : Option (Updater σ))
    (upd : Option (σ → σ)) (p : π) (q0 : PQState π σ)
    (hfresh : ∀ u ∈ opt, u.id ∉ pendingIds q0.pending) :
    (runCommitMutation applyP lookup fragment opt upd p true q0).2 =
      ⟨1, some (lookup
        (pqRun applyP (pqCommitPayload p upd q0)).published
        fragment).data⟩ ∧
    (runCommitMutation applyP lookup fragment opt upd p false q0).2 =
      ⟨0, none⟩ := by
  have hq : (runMutation applyP opt upd [.resolve p]
      (mkEnv q0)).2.queue = pqRun applyP (pqCommitPayload p upd q0) := by
    cases opt with
    | none => rw [runMutation_resolve_none_eq]
    | some u =>
        rw [runMutation_resolve_eq applyP u upd p q0 (hfresh u (by simp))]
  constructor
  · show crsmOnCompleted (lookup (runMutation applyP opt upd
      [.resolve p] (mkEnv q0)).2.queue.published) fragment true =
      ⟨1, some (lookup
        (pqRun applyP (pqCommitPayload p upd q0)).published
        fragment).data⟩
    rw [hq]
    rfl
  · rfl

/-- Witness for C10 at a concrete instance: the lookup reads the
published integer store directly, and on a success with server value
42 over the optimistic prediction 6 the wrapper delivers the
post-commit value. -/
theorem commitMutation_onCompleted_lookup_witness :
    (∀ u ∈ (some wU : Option (Updater Int)),
      u.id ∉ pendingIds wQ0.pending) ∧
    ((runCommitMutation wApply (fun s _ => ⟨s⟩)
        ⟨"client:root", 0, "v"⟩ (some wU) none 42 true wQ0).2 =
      ⟨1, some (((fun (s : Int) (_ : Selector) => (⟨s⟩ : Snapshot Int))
        (pqRun wApply (pqCommitPayload 42 none wQ0)).published
        ⟨"client:root", 0, "v"⟩)).data⟩ ∧
     (runCommitMutation wApply (fun s _ => ⟨s⟩)
        ⟨"client:root", 0, "v"⟩ (some wU) none 42 false wQ0).2 =
      ⟨0, none⟩) :=
  ⟨by decide,
   commitMutation_onCompleted_lookup wApply (fun s _ => ⟨s⟩)
     ⟨"client:root", 0, "v"⟩ (some wU) none 42 wQ0 (by decide)⟩
